import Mathlib

/-!
Verification of the microbin paste store (src/main.rs) against its
natural-language specification.

The embedding models:
* the `Pasta` record as used throughout `main.rs` (the `pasta` module
  itself is not part of the provided sources, but every field and its
  type is determined by its uses in `main.rs`);
* `remove_expired` (main.rs:290-297);
* the `create` handler's field-processing loop (main.rs:71-153), with
  Rust `panic!` modelled as a distinguished `panicked` outcome, the
  random `gen::<u16>() as u64` draw modelled as an arbitrary natural
  number reduced modulo 2^16, and the external `linkify`-based
  `is_valid_url` check abstracted as a boolean-valued parameter;
* the `remove` handler (main.rs:214-230) and the lookup performed by
  `getpasta` (main.rs:155-173);
* the identifier codec (`to_animal_names` / `to_u64`), whose source
  module `animalnumbers` is not among the provided files and is
  therefore modelled from the specification.

Persistence (`save_to_file`) is likewise external; what the claims need
is only *whether* it is invoked, so handlers thread an explicit `disk`
snapshot component: `create` copies the new in-memory collection to it
(main.rs:148), `remove` leaves it untouched (no save call in its body).
-/

/-- The paste record, fields and types as used in `main.rs`
(`id : u64`, `content file pasta_type : String`,
`created expiration : i64`). Machine integers are modelled as `Nat`
resp. `Int`; the only arithmetic performed on them by the modelled
code is comparison and addition of small offsets. -/
structure Pasta where
  id : Nat
  content : String
  file : String
  created : Int
  pasta_type : String
  expiration : Int
deriving Repr, DecidableEq

/-- `remove_expired` (main.rs:290-297):
`pastas.retain(|p| p.expiration == 0 || p.expiration > timenow)`,
with the wall clock passed explicitly. -/
def remove_expired (timenow : Int) (pastas : List Pasta) : List Pasta :=
  pastas.filter (fun p => p.expiration == 0 || decide (p.expiration > timenow))

/-- A multipart field as consumed by the `create` loop (main.rs:88-142):
the loop dispatches on the field name; a `file` field carries an
optional filename from its content disposition; unknown names fall to
the `_ => {}` arm. -/
inductive FormField where
  | expiration (val : String)
  | content (val : String)
  | file (filename : Option String)
  | other
deriving Repr, DecidableEq

/-- The expiration keyword match (main.rs:92-100); `none` is the
`panic!("Unexpected expiration time!")` arm. -/
def expirationOffset (timenow : Int) (s : String) : Option Int :=
  if s = "1min" then some (timenow + 60)
  else if s = "10min" then some (timenow + 60 * 10)
  else if s = "1hour" then some (timenow + 60 * 60)
  else if s = "24hour" then some (timenow + 60 * 60 * 24)
  else if s = "1week" then some (timenow + 60 * 60 * 24 * 7)
  else if s = "never" then some 0
  else none

/-- `filename.replace(' ', "_")` (main.rs:121): every space character
becomes an underscore. The pattern and replacement are single
characters, so Rust's replace-all is a character-by-character map. -/
def sanitize (s : String) : String :=
  String.mk (s.data.map (fun c => if c = ' ' then '_' else c))

/-- One iteration of the `create` field loop (main.rs:88-142), acting on
the pasta record under construction. `validUrl` abstracts
`is_valid_url` (main.rs:299-303), whose behaviour is that of the
external `linkify` crate. A `file` field with no filename or an empty
filename is skipped (`continue`, main.rs:120-122); otherwise the
filename has spaces replaced by underscores (main.rs:121) and the
pasta type is set to `"text"` (main.rs:138). Errors are Rust panics. -/
def processField (validUrl : String → Bool) (timenow : Int) (p : Pasta) :
    FormField → Except String Pasta
  | .expiration v =>
      match expirationOffset timenow v with
      | some e => .ok { p with expiration := e }
      | none => .error "Unexpected expiration time!"
  | .content v =>
      .ok { p with content := v,
                   pasta_type := if validUrl v then "url" else "text" }
  | .file none => .ok p
  | .file (some fname) =>
      if fname = "" then .ok p
      else .ok { p with file := sanitize fname, pasta_type := "text" }
  | .other => .ok p

/-- The full `create` field loop over the multipart payload. -/
def processFields (validUrl : String → Bool) (timenow : Int) (p : Pasta) :
    List FormField → Except String Pasta
  | [] => .ok p
  | f :: fs =>
      match processField validUrl timenow p f with
      | .error m => .error m
      | .ok q => processFields validUrl timenow q fs

/-- Outcome of the `create` handler: on success the new record, the new
in-memory collection and the on-disk snapshot after the handler's
`save_to_file` call; `panicked` models a Rust `panic!` unwinding out of
the handler. -/
inductive CreateOutcome where
  | ok (pasta : Pasta) (pastas disk : List Pasta)
  | panicked (msg : String)
deriving Repr, DecidableEq

/-- The `create` handler (main.rs:71-153): builds the initial record
(main.rs:79-86) with a random id drawn as `gen::<u16>() as u64`
(modelled as `rng % 2^16`), runs the field loop, pushes the record and
saves the whole collection to disk (main.rs:146-148). `create` performs
no expiration sweep and no id-uniqueness check. -/
def create (validUrl : String → Bool) (timenow : Int) (rng : Nat)
    (fields : List FormField) (pastas disk : List Pasta) : CreateOutcome :=
  let init : Pasta :=
    { id := rng % 65536, content := "No Text Content", file := "no-file",
      created := timenow, pasta_type := "", expiration := 0 }
  match processFields validUrl timenow init fields with
  | .error m => .panicked m
  | .ok p => .ok p (pastas ++ [p]) (pastas ++ [p])

/-- The user-visible outcome of the `remove` handler: a redirect to
`/pastalist` on success, the `"Pasta not found! :-("` body otherwise. -/
inductive RemoveOutcome where
  | redirect
  | notFound
deriving Repr, DecidableEq

/-- Removal of the first record with a matching id, as the indexed scan
plus `Vec::remove` does (main.rs:221-228); `none` when no record
matches. -/
def removeFirst (id : Nat) : List Pasta → Option (List Pasta)
  | [] => none
  | p :: ps =>
      if p.id = id then some ps
      else (removeFirst id ps).map (fun l => p :: l)

/-- The `remove` handler (main.rs:214-230): sweeps expired records,
then deletes the first record whose id matches. Its body contains no
`save_to_file` call, so the `disk` component is returned unchanged.
Result: (outcome, in-memory collection afterwards, disk afterwards). -/
def removePasta (timenow : Int) (id : Nat) (pastas disk : List Pasta) :
    RemoveOutcome × List Pasta × List Pasta :=
  let ps := remove_expired timenow pastas
  match removeFirst id ps with
  | some ps' => (.redirect, ps', disk)
  | none => (.notFound, ps, disk)

/-- The lookup performed by `getpasta` (main.rs:155-173): sweep, then
return the first record whose id matches (or nothing, rendered as the
error template). Result: (found record, collection after the sweep). -/
def findPasta (timenow : Int) (id : Nat) (pastas : List Pasta) :
    Option Pasta × List Pasta :=
  let ps := remove_expired timenow pastas
  (ps.find? (fun p => p.id == id), ps)

/-! ## Identifier codec, modelled from the spec

The `animalnumbers` module is not among the provided sources; only its
interface (`to_animal_names : u64 -> words`, `to_u64 : words -> u64`)
is visible from `main.rs`. The definitions below are modelled from the
specification, §4.1. -/

/-- Little-endian base-`B` digit expansion by repeated division; the
first argument is fuel (always instantiated with the number itself),
making the recursion structural and kernel-reducible. -/
def toDigitsAux (B : Nat) : Nat → Nat → List Nat
  | 0, _ => []
  | _, 0 => []
  | fuel + 1, n + 1 => (n + 1) % B :: toDigitsAux B fuel ((n + 1) / B)

/-- Modelled from the spec: `encode` (§4.1) treats the vocabulary as
digits of base B = vocabulary size, repeatedly dividing by B and using
each remainder as a digit, least-significant first; a zero value still
produces one word (the vocabulary's zero entry). This returns the digit
indices. -/
def encodeDigits (B n : Nat) : List Nat :=
  if n = 0 then [0] else toDigitsAux B n n

/-- Reconstitution of a base-`B` number from its little-endian digits
(the numeric half of `decode`, §4.1). -/
def fromDigits (B : Nat) : List Nat → Nat
  | [] => 0
  | d :: ds => d + B * fromDigits B ds

/-- Modelled from the spec: the vocabulary index of a word — the
position of its first occurrence in the fixed ordered vocabulary, or
`none` when the word is absent (the `InvalidIdentifier` case, §4.1). -/
def wordIndex (voc : List String) (w : String) : Option Nat :=
  match voc with
  | [] => none
  | v :: vs => if v = w then some 0 else (wordIndex vs w).map (fun i => i + 1)

/-- Modelled from the spec: `to_animal_names` / `encode` (§4.1) maps a
64-bit identifier to its word sequence over the fixed ordered
vocabulary `voc`. -/
def to_animal_names (voc : List String) (n : Nat) : List String :=
  (encodeDigits voc.length n).map (fun d => voc.getD d "")

/-- Modelled from the spec: `to_u64` / `decode` (§4.1) looks up each
word's vocabulary index and reconstitutes the base-B number; fails
(`none`, the `InvalidIdentifier` error) when any word is absent from
the vocabulary. -/
def to_u64 (voc : List String) : List String → Option Nat
  | [] => some 0
  | w :: ws =>
      match wordIndex voc w, to_u64 voc ws with
      | some d, some n => some (d + voc.length * n)
      | _, _ => none

/-! ## Helper lemmas -/

theorem toDigitsAux_mem_lt {B : Nat} (hB : 0 < B) :
    ∀ fuel n d, d ∈ toDigitsAux B fuel n → d < B := by
  intro fuel
  induction fuel with
  | zero => intro n d h; simp [toDigitsAux] at h
  | succ f ih =>
      intro n d h
      cases n with
      | zero => simp [toDigitsAux] at h
      | succ m =>
          simp only [toDigitsAux, List.mem_cons] at h
          rcases h with h | h
          · exact h ▸ Nat.mod_lt _ hB
          · exact ih _ d h

theorem fromDigits_toDigitsAux {B : Nat} (hB : 2 ≤ B) :
    ∀ fuel n, n ≤ fuel → fromDigits B (toDigitsAux B fuel n) = n := by
  intro fuel
  induction fuel with
  | zero =>
      intro n hn
      have : n = 0 := Nat.le_zero.mp hn
      subst this
      simp [toDigitsAux, fromDigits]
  | succ f ih =>
      intro n hn
      cases n with
      | zero => simp [toDigitsAux, fromDigits]
      | succ m =>
          have hdiv : (m + 1) / B ≤ f := by
            have h1 : (m + 1) / B < m + 1 := Nat.div_lt_self (Nat.succ_pos m) hB
            omega
          simp only [toDigitsAux, fromDigits, ih _ hdiv]
          exact Nat.mod_add_div (m + 1) B

theorem fromDigits_encodeDigits {B : Nat} (hB : 2 ≤ B) (n : Nat) :
    fromDigits B (encodeDigits B n) = n := by
  by_cases h : n = 0
  · subst h; simp [encodeDigits, fromDigits]
  · simp only [encodeDigits, if_neg h]
    exact fromDigits_toDigitsAux hB n n (Nat.le_refl n)

theorem encodeDigits_mem_lt {B : Nat} (hB : 2 ≤ B) {n d : Nat}
    (h : d ∈ encodeDigits B n) : d < B := by
  by_cases hn : n = 0
  · subst hn
    simp [encodeDigits] at h
    omega
  · simp only [encodeDigits, if_neg hn] at h
    exact toDigitsAux_mem_lt (by omega) n n d h

theorem wordIndex_getD {voc : List String} (hnd : voc.Nodup) :
    ∀ d, d < voc.length → wordIndex voc (voc.getD d "") = some d := by
  induction voc with
  | nil => intro d hd; simp at hd
  | cons v vs ih =>
      rcases List.nodup_cons.mp hnd with ⟨hv, hvs⟩
      intro d hd
      cases d with
      | zero => simp [wordIndex, List.getD]
      | succ j =>
          have hj : j < vs.length := by simpa using hd
          have hgd : (v :: vs).getD (j + 1) "" = vs.getD j "" := by
            simp [List.getD]
          have hne : v ≠ vs.getD j "" := by
            rw [List.getD_eq_getElem vs "" hj]
            intro hcontra
            exact hv (hcontra ▸ List.getElem_mem hj)
          rw [hgd]
          simp only [wordIndex, if_neg hne, ih hvs j hj, Option.map_some']

theorem to_u64_map_getD {voc : List String} (hnd : voc.Nodup) :
    ∀ ds : List Nat, (∀ d ∈ ds, d < voc.length) →
      to_u64 voc (ds.map (fun d => voc.getD d "")) = some (fromDigits voc.length ds) := by
  intro ds
  induction ds with
  | nil => intro _; simp [to_u64, fromDigits]
  | cons d ds ih =>
      intro h
      have hd : d < voc.length := h d (List.mem_cons_self d ds)
      have hds : ∀ x ∈ ds, x < voc.length :=
        fun x hx => h x (List.mem_cons_of_mem d hx)
      simp only [List.map_cons, to_u64, wordIndex_getD hnd d hd, ih hds, fromDigits]

/-- C1: for every 64-bit identifier `i`, decoding the word-sequence
encoding of `i` over a fixed vocabulary of distinct words (order
defining digit value, base B = vocabulary size ≥ 2) yields `i` back:
`to_u64 (to_animal_names i) = some i`. -/
theorem decode_encode_roundtrip (voc : List String) (n : Nat)
    (hnd : voc.Nodup) (hB : 2 ≤ voc.length) (h64 : n < 2 ^ 64) :
    to_u64 voc (to_animal_names voc n) = some n := by
  unfold to_animal_names
  rw [to_u64_map_getD hnd (encodeDigits voc.length n)
        (fun d hd => encodeDigits_mem_lt hB hd),
      fromDigits_encodeDigits hB]

/-- C1 witness: concrete round-trip over a three-word vocabulary. -/
theorem decode_encode_roundtrip_witness :
    (["ant", "bat", "cat"] : List String).Nodup ∧
    2 ≤ (["ant", "bat", "cat"] : List String).length ∧
    (14 : Nat) < 2 ^ 64 ∧
    to_u64 ["ant", "bat", "cat"] (to_animal_names ["ant", "bat", "cat"] 14) = some 14 :=
  ⟨by decide, by decide, by decide,
    decode_encode_roundtrip ["ant", "bat", "cat"] 14 (by decide) (by decide) (by decide)⟩

/-- C2 counterexample: a record whose `expiration` equals the current
time is nonzero and has NOT passed strictly before the current time, so
the claim says it is retained — yet `remove_expired` deletes it
(`p.expiration > timenow` is strict, so equality falls on the removal
side). -/
theorem sweep_boundary_cex :
    (Pasta.mk 1 "x" "no-file" 0 "text" 5).expiration ≠ 0 ∧
    ¬ (Pasta.mk 1 "x" "no-file" 0 "text" 5).expiration < (5 : Int) ∧
    remove_expired 5 [Pasta.mk 1 "x" "no-file" 0 "text" 5] = [] :=
  ⟨by decide, by decide, by decide⟩

/-- C2 (amended): the sweep retains exactly the records whose
`expiration` is zero or strictly greater than the current time;
equivalently it removes exactly those with nonzero
`expiration ≤ timenow` (not `< timenow`). -/
theorem mem_remove_expired (t : Int) (ps : List Pasta) (p : Pasta) :
    p ∈ remove_expired t ps ↔ p ∈ ps ∧ (p.expiration = 0 ∨ t < p.expiration) := by
  simp [remove_expired, List.mem_filter]

/-- C8: the expiration sweep is idempotent — sweeping twice at the same
current time yields the same surviving collection as sweeping once. -/
theorem remove_expired_idempotent (t : Int) (ps : List Pasta) :
    remove_expired t (remove_expired t ps) = remove_expired t ps := by
  simp only [remove_expired, List.filter_filter]
  simp

/-- C10: the sweep only ever removes records — the surviving collection
is a sublist of the original, so every survivor is one of the original
records unchanged field-for-field, and survivors keep their original
relative order. -/
theorem remove_expired_sublist (t : Int) (ps : List Pasta) :
    (remove_expired t ps).Sublist ps :=
  List.filter_sublist ps

theorem processField_id {vU : String → Bool} {t : Int} {p q : Pasta}
    {f : FormField} (h : processField vU t p f = .ok q) : q.id = p.id := by
  cases f with
  | expiration v =>
      simp only [processField] at h
      cases hoff : expirationOffset t v with
      | none => rw [hoff] at h; cases h
      | some e => rw [hoff] at h; cases h; rfl
  | content v => simp only [processField] at h; cases h; rfl
  | file fname =>
      cases fname with
      | none => simp only [processField] at h; cases h; rfl
      | some s =>
          simp only [processField] at h
          by_cases hs : s = ""
          · rw [if_pos hs] at h; cases h; rfl
          · rw [if_neg hs] at h; cases h; rfl
  | other => simp only [processField] at h; cases h; rfl

theorem processFields_id {vU : String → Bool} {t : Int} :
    ∀ {fs : List FormField} {p q : Pasta},
      processFields vU t p fs = .ok q → q.id = p.id := by
  intro fs
  induction fs with
  | nil => intro p q h; simp only [processFields] at h; cases h; rfl
  | cons f fs ih =>
      intro p q h
      simp only [processFields] at h
      cases hf : processField vU t p f with
      | error m => rw [hf] at h; cases h
      | ok r => rw [hf] at h; exact (ih h).trans (processField_id hf)

/-- C9: every id assigned by `create` comes from a 16-bit random draw
cast to 64 bits, so the id of every successfully created paste is
strictly below 2^16 = 65536. -/
theorem create_id_lt (vU : String → Bool) (t : Int) (rng : Nat)
    (fs : List FormField) (ps disk : List Pasta) (p : Pasta)
    (ps' d' : List Pasta)
    (h : create vU t rng fs ps disk = CreateOutcome.ok p ps' d') :
    p.id < 65536 := by
  simp only [create] at h
  cases hp : processFields vU t
      { id := rng % 65536, content := "No Text Content", file := "no-file",
        created := t, pasta_type := "", expiration := 0 } fs with
  | error m => rw [hp] at h; cases h
  | ok q =>
      rw [hp] at h
      cases h
      have := processFields_id hp
      simp only [this]
      exact Nat.mod_lt rng (by omega)

/-- C9 witness: a draw of 70000 is reduced mod 2^16 to 4464 < 65536. -/
theorem create_id_lt_witness :
    create (fun _ => false) 0 70000 [] [] []
      = CreateOutcome.ok (Pasta.mk 4464 "No Text Content" "no-file" 0 "" 0)
          [Pasta.mk 4464 "No Text Content" "no-file" 0 "" 0]
          [Pasta.mk 4464 "No Text Content" "no-file" 0 "" 0] ∧
    (Pasta.mk 4464 "No Text Content" "no-file" 0 "" 0).id < 65536 :=
  ⟨by decide, create_id_lt (fun _ => false) 0 70000 [] [] []
      (Pasta.mk 4464 "No Text Content" "no-file" 0 "" 0)
      [Pasta.mk 4464 "No Text Content" "no-file" 0 "" 0]
      [Pasta.mk 4464 "No Text Content" "no-file" 0 "" 0] (by decide)⟩

/-- C3 counterexample: a successful `remove` of the only paste empties
the in-memory collection but leaves the disk snapshot untouched (the
handler body contains no save call), so the on-disk snapshot does not
equal the in-memory collection when the operation returns. -/
theorem remove_no_save_cex :
    removePasta 10 1 [Pasta.mk 1 "x" "no-file" 0 "text" 0]
        [Pasta.mk 1 "x" "no-file" 0 "text" 0]
      = (RemoveOutcome.redirect, [], [Pasta.mk 1 "x" "no-file" 0 "text" 0]) ∧
    ([] : List Pasta) ≠ [Pasta.mk 1 "x" "no-file" 0 "text" 0] :=
  ⟨by decide, by decide⟩

/-- C3 (amended): `create` saves synchronously — after every successful
`create` the disk snapshot equals the new in-memory collection — but
`remove` never invokes the save, returning the disk snapshot unchanged
no matter what it removed. -/
theorem save_after_create_not_remove :
    (∀ (vU : String → Bool) (t : Int) (rng : Nat) (fs : List FormField)
        (ps disk : List Pasta) (p : Pasta) (ps' d' : List Pasta),
        create vU t rng fs ps disk = CreateOutcome.ok p ps' d' → d' = ps') ∧
    (∀ (t : Int) (id : Nat) (ps disk : List Pasta),
        (removePasta t id ps disk).2.2 = disk) := by
  constructor
  · intro vU t rng fs ps disk p ps' d' h
    simp only [create] at h
    cases hp : processFields vU t
        { id := rng % 65536, content := "No Text Content", file := "no-file",
          created := t, pasta_type := "", expiration := 0 } fs with
    | error m => rw [hp] at h; cases h
    | ok q => rw [hp] at h; cases h; rfl
  · intro t id ps disk
    simp only [removePasta]
    cases removeFirst id (remove_expired t ps) <;> rfl

/-- C3 witness: instantiates the create half at a concrete call. -/
theorem save_after_create_not_remove_witness :
    create (fun _ => false) 0 0 [] [] []
      = CreateOutcome.ok (Pasta.mk 0 "No Text Content" "no-file" 0 "" 0)
          [Pasta.mk 0 "No Text Content" "no-file" 0 "" 0]
          [Pasta.mk 0 "No Text Content" "no-file" 0 "" 0] ∧
    [Pasta.mk 0 "No Text Content" "no-file" 0 "" 0]
      = [Pasta.mk 0 "No Text Content" "no-file" 0 "" 0] :=
  ⟨by decide, save_after_create_not_remove.1 (fun _ => false) 0 0 [] [] []
      (Pasta.mk 0 "No Text Content" "no-file" 0 "" 0) _ _ (by decide)⟩

/-- C4 counterexample: a file upload with the nonempty filename
`"report.txt"` produces a paste whose kind is `"text"`, not `"file"`
(main.rs:138 sets `pasta_type = "text"` in the file arm). -/
theorem file_kind_cex :
    create (fun _ => false) 0 0 [FormField.file (some "report.txt")] [] []
      = CreateOutcome.ok (Pasta.mk 0 "No Text Content" "report.txt" 0 "text" 0)
          [Pasta.mk 0 "No Text Content" "report.txt" 0 "text" 0]
          [Pasta.mk 0 "No Text Content" "report.txt" 0 "text" 0] ∧
    (Pasta.mk 0 "No Text Content" "report.txt" 0 "text" 0).pasta_type ≠ "file" :=
  ⟨by decide, by decide⟩

/-- The kind (`pasta_type`) of the record produced by a `create`
outcome, `none` when the handler panicked. -/
def createdType : CreateOutcome → Option String
  | .ok p _ _ => some p.pasta_type
  | .panicked _ => none

/-- C4 (amended): a content field classifies the paste as `"url"`
exactly when `is_valid_url` accepts the whole input and as `"text"`
otherwise; a file field with a nonempty filename classifies it as
`"text"` (not `"file"`). -/
theorem kind_classification (vU : String → Bool) (t : Int) (rng : Nat)
    (s f : String) (ps disk : List Pasta) (hf : f ≠ "") :
    createdType (create vU t rng [FormField.content s] ps disk)
      = some (if vU s then "url" else "text") ∧
    createdType (create vU t rng [FormField.file (some f)] ps disk)
      = some "text" := by
  constructor
  · simp [create, processFields, processField, createdType]
  · simp [create, processFields, processField, createdType, if_neg hf]

/-- C4 witness: instantiates the classification at concrete inputs. -/
theorem kind_classification_witness :
    ("a.txt" : String) ≠ "" ∧
    createdType (create (fun _ => false) 0 0 [FormField.content "hello"] [] [])
      = some (if (fun (_ : String) => false) "hello" then "url" else "text") ∧
    createdType (create (fun _ => false) 0 0 [FormField.file (some "a.txt")] [] [])
      = some "text" := by
  have h := kind_classification (fun _ => false) 0 0 "hello" "a.txt" [] [] (by decide)
  exact ⟨by decide, h.1, h.2⟩

/-- C5 counterexample: an unrecognized expiration choice (`"2min"`)
makes `create` panic (`panic!("Unexpected expiration time!")`,
main.rs:99), an unchecked abort of the request handler, rather than
return a typed `InvalidExpirationChoice` rejection — no such typed
error exists anywhere in the code. -/
theorem invalid_expiration_cex :
    create (fun _ => false) 0 0 [FormField.expiration "2min"] [] []
      = CreateOutcome.panicked "Unexpected expiration time!" := by decide

/-- C5 (amended): for every expiration choice outside the six named
offsets, `create` panics with "Unexpected expiration time!" instead of
returning a typed error. -/
theorem unknown_expiration_panics (vU : String → Bool) (t : Int)
    (rng : Nat) (v : String) (ps disk : List Pasta)
    (hv : v ∉ ["1min", "10min", "1hour", "24hour", "1week", "never"]) :
    create vU t rng [FormField.expiration v] ps disk
      = CreateOutcome.panicked "Unexpected expiration time!" := by
  simp only [List.mem_cons, List.mem_singleton, not_or] at hv
  obtain ⟨h1, h2, h3, h4, h5, h6⟩ := hv
  simp [create, processFields, processField, expirationOffset,
    h1, h2, h3, h4, h5, h6]

/-- C5 witness: the concrete choice `"2min"` is outside the six named
offsets and makes `create` panic. -/
theorem unknown_expiration_panics_witness :
    ("2min" : String) ∉ ["1min", "10min", "1hour", "24hour", "1week", "never"] ∧
    create (fun _ => true) 7 3 [FormField.expiration "2min"] [] []
      = CreateOutcome.panicked "Unexpected expiration time!" :=
  ⟨by decide, unknown_expiration_panics (fun _ => true) 7 3 "2min" [] [] (by decide)⟩

theorem removeFirst_eq_none {id : Nat} :
    ∀ {ps : List Pasta}, (∀ p ∈ ps, p.id ≠ id) → removeFirst id ps = none := by
  intro ps
  induction ps with
  | nil => intro _; rfl
  | cons p ps ih =>
      intro h
      simp only [removeFirst, if_neg (h p (List.mem_cons_self p ps)),
        ih (fun q hq => h q (List.mem_cons_of_mem p hq)), Option.map_none']

theorem mem_of_mem_remove_expired {t : Int} {ps : List Pasta} {q : Pasta}
    (h : q ∈ remove_expired t ps) : q ∈ ps :=
  (List.filter_sublist ps).subset h

/-- C6 counterexample: with the collection holding only an expired
record of id 7, removing the absent id 5 returns NotFound but also
deletes the expired record through the sweep the handler runs first, so
the collection does not stay unchanged. -/
theorem remove_absent_mutates_cex :
    (Pasta.mk 7 "x" "no-file" 0 "text" 1).id ≠ 5 ∧
    removePasta 10 5 [Pasta.mk 7 "x" "no-file" 0 "text" 1]
        [Pasta.mk 7 "x" "no-file" 0 "text" 1]
      = (RemoveOutcome.notFound, [], [Pasta.mk 7 "x" "no-file" 0 "text" 1]) ∧
    ([] : List Pasta) ≠ [Pasta.mk 7 "x" "no-file" 0 "text" 1] :=
  ⟨by decide, by decide, by decide⟩

/-- C6 (amended): removing an id that no record carries returns
NotFound and changes the collection exactly by the expiration sweep the
handler performs first (no non-expired record is added, removed or
modified, and the disk snapshot is untouched). -/
theorem remove_absent_not_found (t : Int) (id : Nat) (ps disk : List Pasta)
    (h : ∀ p ∈ ps, p.id ≠ id) :
    removePasta t id ps disk = (RemoveOutcome.notFound, remove_expired t ps, disk) := by
  have hnone : removeFirst id (remove_expired t ps) = none :=
    removeFirst_eq_none (fun q hq => h q (mem_of_mem_remove_expired hq))
  simp [removePasta, hnone]

/-- C6 witness: instantiates the amended claim at the counterexample's
input. -/
theorem remove_absent_not_found_witness :
    (Pasta.mk 7 "y" "no-file" 0 "text" 1).id ≠ 5 ∧
    removePasta 10 5 [Pasta.mk 7 "y" "no-file" 0 "text" 1]
        [Pasta.mk 7 "y" "no-file" 0 "text" 1]
      = (RemoveOutcome.notFound,
          remove_expired 10 [Pasta.mk 7 "y" "no-file" 0 "text" 1],
          [Pasta.mk 7 "y" "no-file" 0 "text" 1]) :=
  ⟨by decide, remove_absent_not_found 10 5 [Pasta.mk 7 "y" "no-file" 0 "text" 1]
      [Pasta.mk 7 "y" "no-file" 0 "text" 1] (by decide)⟩

theorem find?_append_none {α : Type} (f : α → Bool) (l₁ l₂ : List α)
    (h : ∀ x ∈ l₁, f x = false) : (l₁ ++ l₂).find? f = l₂.find? f := by
  induction l₁ with
  | nil => rfl
  | cons a l ih =>
      simp only [List.cons_append, List.find?_cons,
        h a (List.mem_cons_self a l)]
      exact ih (fun x hx => h x (List.mem_cons_of_mem a hx))

/-- C7: a paste whose expiration is 60 seconds after creation (the
`"1min"` choice) is still found by the lookup at `created + 59` and is
gone (not found) at `created + 61`, provided no other record shares its
id and the creation timestamp is a valid epoch time (nonnegative). -/
theorem expiration_boundary (ps : List Pasta) (p : Pasta)
    (hid : ∀ q ∈ ps, q.id ≠ p.id) (hc : 0 ≤ p.created)
    (he : p.expiration = p.created + 60) :
    (findPasta (p.created + 59) p.id (ps ++ [p])).1 = some p ∧
    (findPasta (p.created + 61) p.id (ps ++ [p])).1 = none := by
  have hsplit : ∀ t : Int, remove_expired t (ps ++ [p]) =
      remove_expired t ps ++ remove_expired t [p] := by
    intro t; simp [remove_expired, List.filter_append]
  have hleft : ∀ t : Int, ∀ q ∈ remove_expired t ps,
      (q.id == p.id) = false := by
    intro t q hq
    simpa using hid q (mem_of_mem_remove_expired hq)
  constructor
  · have hcond : ((p.expiration == 0) || decide (p.expiration > p.created + 59)) = true := by
      simp only [Bool.or_eq_true, beq_iff_eq, decide_eq_true_eq]
      omega
    have hone : remove_expired (p.created + 59) [p] = [p] := by
      simp [remove_expired, List.filter, hcond]
    simp only [findPasta, hsplit, hone]
    rw [find?_append_none _ _ _ (hleft (p.created + 59))]
    simp [List.find?_cons]
  · have hcond : ((p.expiration == 0) || decide (p.expiration > p.created + 61)) = false := by
      simp only [Bool.or_eq_false_iff, beq_eq_false_iff_ne, ne_eq,
        decide_eq_false_iff_not]
      omega
    have hone : remove_expired (p.created + 61) [p] = [] := by
      simp [remove_expired, List.filter, hcond]
    simp only [findPasta, hsplit, hone, List.append_nil]
    exact List.find?_eq_none.mpr
      (fun q hq => by simpa using hid q (mem_of_mem_remove_expired hq))

/-- C7 witness: a concrete paste created at time 100 with expiration
160, found at 159 and gone at 161. -/
theorem expiration_boundary_witness :
    (0 : Int) ≤ (Pasta.mk 3 "x" "no-file" 100 "text" 160).created ∧
    (Pasta.mk 3 "x" "no-file" 100 "text" 160).expiration
      = (Pasta.mk 3 "x" "no-file" 100 "text" 160).created + 60 ∧
    (findPasta ((Pasta.mk 3 "x" "no-file" 100 "text" 160).created + 59)
        (Pasta.mk 3 "x" "no-file" 100 "text" 160).id
        ([] ++ [Pasta.mk 3 "x" "no-file" 100 "text" 160])).1
      = some (Pasta.mk 3 "x" "no-file" 100 "text" 160) ∧
    (findPasta ((Pasta.mk 3 "x" "no-file" 100 "text" 160).created + 61)
        (Pasta.mk 3 "x" "no-file" 100 "text" 160).id
        ([] ++ [Pasta.mk 3 "x" "no-file" 100 "text" 160])).1
      = none := by
  have h := expiration_boundary [] (Pasta.mk 3 "x" "no-file" 100 "text" 160)
      (by simp) (by decide) (by decide)
  exact ⟨by decide, by decide, h.1, h.2⟩
